import Mathlib

/-!
Shallow embedding of the prosody-filer upload handler (src/prosody-filer.go),
together with the Go standard-library functions it calls: path cleaning and
joining (path.Clean / path.Join / filepath.Join / filepath.Dir / filepath.Ext
on a slash-separated platform), strings.TrimPrefix, hex encoding,
HMAC-SHA256 (crypto/hmac, crypto/sha256) and the constant-time comparison
hmac.Equal (crypto/subtle.ConstantTimeCompare).  Bytes are Nat values below
256, 32-bit machine words are Nat values reduced mod 2^32.  The filesystem
is an association list from absolute path strings to entries; the HTTP
response is an inductive carrying the data the handler puts in the reply.
-/

set_option maxRecDepth 8000

/-! Byte-level primitives: Go converts a string to its UTF-8 bytes with
a plain conversion; utf8Bytes encodes one code point. -/

def utf8Bytes (c : Char) : List Nat :=
  let n := c.toNat
  if n < 128 then [n]
  else if n < 2048 then [192 ||| (n >>> 6), 128 ||| (n &&& 63)]
  else if n < 65536 then
    [224 ||| (n >>> 12), 128 ||| ((n >>> 6) &&& 63), 128 ||| (n &&& 63)]
  else
    [240 ||| (n >>> 18), 128 ||| ((n >>> 12) &&& 63),
     128 ||| ((n >>> 6) &&& 63), 128 ||| (n &&& 63)]

def strBytes (s : String) : List Nat :=
  (s.data.map utf8Bytes).flatten

/-- Lower-case hexadecimal digit, as used by Go's encoding/hex. -/
def hexDigitChar (n : Nat) : Char :=
  if n < 10 then Char.ofNat (48 + n) else Char.ofNat (87 + n)

def hexEncode (bs : List Nat) : String :=
  String.mk ((bs.map (fun b => [hexDigitChar (b / 16), hexDigitChar (b % 16)])).flatten)

def isLowerHexDigit (c : Char) : Bool :=
  ('0' ≤ c ∧ c ≤ '9') ∨ ('a' ≤ c ∧ c ≤ 'f')

/-! SHA-256 (FIPS 180-4, as implemented by crypto/sha256) over byte lists. -/

def w32 (x : Nat) : Nat := x % 4294967296

def rotr32 (n x : Nat) : Nat := w32 ((x >>> n) ||| (x <<< (32 - n)))

def ssig0 (x : Nat) : Nat := rotr32 7 x ^^^ rotr32 18 x ^^^ (x >>> 3)

def ssig1 (x : Nat) : Nat := rotr32 17 x ^^^ rotr32 19 x ^^^ (x >>> 10)

def bsig0 (x : Nat) : Nat := rotr32 2 x ^^^ rotr32 13 x ^^^ rotr32 22 x

def bsig1 (x : Nat) : Nat := rotr32 6 x ^^^ rotr32 11 x ^^^ rotr32 25 x

def chFn (x y z : Nat) : Nat := (x &&& y) ^^^ ((x ^^^ 4294967295) &&& z)

def majFn (x y z : Nat) : Nat := (x &&& y) ^^^ (x &&& z) ^^^ (y &&& z)

def shaK : List Nat :=
  [1116352408, 1899447441, 3049323471, 3921009573, 961987163, 1508970993,
   2453635748, 2870763221, 3624381080, 310598401, 607225278, 1426881987,
   1925078388, 2162078206, 2614888103, 3248222580, 3835390401, 4022224774,
   264347078, 604807628, 770255983, 1249150122, 1555081692, 1996064986,
   2554220882, 2821834349, 2952996808, 3210313671, 3336571891, 3584528711,
   113926993, 338241895, 666307205, 773529912, 1294757372, 1396182291,
   1695183700, 1986661051, 2177026350, 2456956037, 2730485921, 2820302411,
   3259730800, 3345764771, 3516065817, 3600352804, 4094571909, 275423344,
   430227734, 506948616, 659060556, 883997877, 958139571, 1322822218,
   1537002063, 1747873779, 1955562222, 2024104815, 2227730452, 2361852424,
   2428436474, 2756734187, 3204031479, 3329325298]

def shaH0 : List Nat :=
  [1779033703, 3144134277, 1013904242, 2773480762,
   1359893119, 2600822924, 528734635, 1541459225]

def be32 (n : Nat) : List Nat :=
  [(n >>> 24) % 256, (n >>> 16) % 256, (n >>> 8) % 256, n % 256]

def be64 (n : Nat) : List Nat :=
  [(n >>> 56) % 256, (n >>> 48) % 256, (n >>> 40) % 256, (n >>> 32) % 256,
   (n >>> 24) % 256, (n >>> 16) % 256, (n >>> 8) % 256, n % 256]

def sha256Pad (msg : List Nat) : List Nat :=
  msg ++ [128] ++ List.replicate ((119 - msg.length % 64) % 64) 0 ++ be64 (8 * msg.length)

def chunksAux : Nat → List Nat → List (List Nat)
  | _, [] => []
  | 0, l => [l]
  | n + 1, l => l.take 64 :: chunksAux n (l.drop 64)

def chunks64 (l : List Nat) : List (List Nat) := chunksAux l.length l

def beWords : List Nat → List Nat
  | a :: b :: c :: d :: rest => ((a <<< 24) ||| (b <<< 16) ||| (c <<< 8) ||| d) :: beWords rest
  | _ => []

def extendW : Nat → List Nat → List Nat
  | 0, w => w
  | n + 1, w =>
    let l := w.length
    let nw := w32 (ssig1 (w.getD (l - 2) 0) + w.getD (l - 7) 0 +
                   ssig0 (w.getD (l - 15) 0) + w.getD (l - 16) 0)
    extendW n (w ++ [nw])

def sha256Round (st : List Nat) (kw : Nat × Nat) : List Nat :=
  match st with
  | [a, b, c, d, e, f, g, h] =>
    let t1 := w32 (h + bsig1 e + chFn e f g + kw.1 + kw.2)
    let t2 := w32 (bsig0 a + majFn a b c)
    [w32 (t1 + t2), a, b, c, w32 (d + t1), e, f, g]
  | other => other

def compressBlock (h : List Nat) (block : List Nat) : List Nat :=
  let w := extendW 48 (beWords block)
  let st := (shaK.zip w).foldl sha256Round h
  (h.zip st).map (fun p => w32 (p.1 + p.2))

def sha256Bytes (msg : List Nat) : List Nat :=
  (((chunks64 (sha256Pad msg)).foldl compressBlock shaH0).map be32).flatten

/-- HMAC-SHA256 (RFC 2104, as implemented by crypto/hmac with a 64-byte
block size). -/
def hmacSha256 (key msg : List Nat) : List Nat :=
  let k0 := if 64 < key.length then sha256Bytes key else key
  let kp := k0 ++ List.replicate (64 - k0.length) 0
  sha256Bytes ((kp.map (fun b => b ^^^ 92)) ++ sha256Bytes ((kp.map (fun b => b ^^^ 54)) ++ msg))

/-! crypto/subtle: constant-time comparison used by hmac.Equal.
ctLoop mirrors the loop "for i := range x { v |= x[i] ^ y[i] }" and also
counts the iterations the loop executes. -/

def constantTimeByteEq (x y : Nat) : Nat :=
  (w32 ((x ^^^ y) + 4294967295)) >>> 31

def ctLoop : Nat × Nat → List (Nat × Nat) → Nat × Nat
  | vs, [] => vs
  | (v, s), p :: ps => ctLoop (v ||| (p.1 ^^^ p.2), s + 1) ps

def constantTimeCompare (x y : List Nat) : Nat :=
  if x.length = y.length then constantTimeByteEq (ctLoop (0, 0) (x.zip y)).1 0
  else 0

/-- Number of loop iterations constantTimeCompare executes on x and y. -/
def ctCompareSteps (x y : List Nat) : Nat :=
  if x.length = y.length then (ctLoop (0, 0) (x.zip y)).2 else 0

/-- Number of byte comparisons a naive short-circuiting equality performs
before returning; stated for contrast with ctCompareSteps. -/
def naiveEqSteps : List Nat → List Nat → Nat
  | [], _ => 0
  | _, [] => 0
  | a :: as, b :: bs => if a = b then 1 + naiveEqSteps as bs else 1

/-- hmac.Equal from crypto/hmac. -/
def hmacEqual (x y : List Nat) : Bool :=
  constantTimeCompare x y == 1

/-! Lexical path handling: Go's path.Clean stack algorithm on the list of
slash-separated components, then path.Join / filepath.Join / filepath.Dir /
filepath.Ext built on it (the platform separator is the slash). -/

def splitSlash : List Char → List (List Char)
  | [] => [[]]
  | c :: cs =>
    if c = '/' then [] :: splitSlash cs
    else
      match splitSlash cs with
      | [] => [[c]]
      | g :: gs => (c :: g) :: gs

def joinSlash : List (List Char) → List Char
  | [] => []
  | [p] => p
  | p :: ps => p ++ '/' :: joinSlash ps

/-- One component of the path.Clean stack pass: empty and dot components
are dropped, a dot-dot pops a non-dot-dot top, is dropped at the root of a
rooted path, and is kept at the head of a relative path. -/
def cleanStep (rooted : Bool) (stack : List (List Char)) (p : List Char) : List (List Char) :=
  if p = [] ∨ p = ['.'] then stack
  else if p = ['.', '.'] then
    match stack with
    | [] => if rooted then [] else [['.', '.']]
    | q :: qs => if q = ['.', '.'] then ['.', '.'] :: q :: qs else qs
  else p :: stack

/-- Stack pass of path.Clean over all components; the stack holds the
output components in reverse. -/
def cleanLoop (rooted : Bool) (stack parts : List (List Char)) : List (List Char) :=
  parts.foldl (cleanStep rooted) stack

/-- Go path.Clean (equal to filepath.Clean with slash separators). -/
def cleanPath (s : String) : String :=
  match s.data with
  | [] => "."
  | c :: cs =>
    let rooted := c = '/'
    let ps := (cleanLoop rooted [] (splitSlash (c :: cs))).reverse
    if rooted then String.mk ('/' :: joinSlash ps)
    else if ps = [] then "." else String.mk (joinSlash ps)

/-- Go path.Join / filepath.Join on two elements: empty elements are
dropped, the rest are joined with a slash and cleaned. -/
def goJoin2 (a b : String) : String :=
  if a = "" then (if b = "" then "" else cleanPath b)
  else if b = "" then cleanPath a
  else cleanPath (a ++ "/" ++ b)

/-- Go filepath.Dir: everything up to and including the final slash,
cleaned; a path without a slash gives the dot directory. -/
def goDir (p : String) : String :=
  cleanPath (String.mk ((p.data.reverse.dropWhile (fun c => c ≠ '/')).reverse))

/-- Go filepath.Ext: the suffix of the final element starting at its final
dot, or empty when the final element has no dot. -/
def goExt (p : String) : String :=
  let r := p.data.reverse.takeWhile (fun c => c ≠ '/')
  if r.contains '.' then String.mk ((r.takeWhile (fun c => c ≠ '.') ++ ['.']).reverse)
  else ""

/-- Go strings.TrimPrefix. -/
def goTrimPre (s pre : String) : String :=
  if pre.data.isPrefixOf s.data then String.mk (s.data.drop pre.data.length) else s

/-- Field split used by net/http's containsDotDot: components between
slash or backslash runes (strings.FieldsFunc with isSlashRune; empty
fields are immaterial for the dot-dot membership test). -/
def splitSlashes : List Char → List (List Char)
  | [] => [[]]
  | c :: cs =>
    if c = '/' ∨ c = '\\' then [] :: splitSlashes cs
    else
      match splitSlashes cs with
      | [] => [[c]]
      | g :: gs => (c :: g) :: gs

/-- containsDotDot from net/http: http.ServeFile rejects a request whose
URL path has a dot-dot segment with 400 before serving anything. -/
def containsDotDot (s : String) : Bool :=
  (splitSlashes s.data).contains ['.', '.']

/-- Components of the cleaned rooted form of a path: the cleanLoop stack,
in path order. -/
def rootedParts (s : String) : List (List Char) :=
  (cleanLoop true [] (splitSlash s.data)).reverse

/-- Lexical descendant-or-equal test at component level: every component
of root (cleaned) leads the cleaned component list of p. -/
def isDescendant (root p : String) : Bool :=
  (rootedParts root).isPrefixOf (rootedParts p)

/-- A path component that survives the cleaning stack of a rooted path:
nonempty, not a dot, not a dot-dot, and free of separators. -/
def goodPart (p : List Char) : Prop :=
  p ≠ [] ∧ p ≠ ['.'] ∧ p ≠ ['.', '.'] ∧ '/' ∉ p

/-! The filesystem model: an association list from path strings to entries.
Lookup takes the first binding; creation appends. -/

inductive FsEntry where
  | file (content : List Nat)
  | dir
deriving DecidableEq

abbrev FileSystem := List (String × FsEntry)

def statFs (fs : FileSystem) (p : String) : Option FsEntry :=
  (List.find? (fun e => e.1 == p) fs).map (fun e => e.2)

def fsInsert (fs : FileSystem) (p : String) (e : FsEntry) : FileSystem :=
  fs ++ [(p, e)]

/-- Ancestor chain of a directory path, from the top down, as os.MkdirAll
walks it: for a rooted path /a/b this is [/a, /a/b]. -/
def dirChain (d : String) : List String :=
  match d.data with
  | [] => []
  | c :: cs =>
    let rooted := c = '/'
    let ps := (splitSlash (c :: cs)).filter (fun p => p ≠ [])
    (List.range ps.length).map
      (fun i => String.mk ((if rooted then ['/'] else []) ++ joinSlash (ps.take (i + 1))))

def mkdirAllFrom : FileSystem → List String → Option FileSystem
  | fs, [] => some fs
  | fs, d :: rest =>
    match statFs fs d with
    | some .dir => mkdirAllFrom fs rest
    | some (.file _) => none
    | none => mkdirAllFrom (fsInsert fs d .dir) rest

/-- os.MkdirAll: creates every missing ancestor directory, fails when an
ancestor exists as a regular file. -/
def mkdirAll (fs : FileSystem) (d : String) : Option FileSystem :=
  mkdirAllFrom fs (dirChain d)

/-! The server: configuration, request, response and the request handler of
src/prosody-filer.go. -/

structure Config where
  listenport : String
  unixSocket : Bool
  secret : String
  storedir : String
  uploadSubDir : String

structure GoRequest where
  method : String
  urlPath : String
  query : List (String × String)
  contentLength : Int
  body : List Nat

inductive Response where
  | err (code : Nat)
  | created
  | okGet (contentType : String) (body : List Nat)
  | okHead (contentType : String) (contentLength : Nat)
  | okOptions
deriving DecidableEq

def Response.status : Response → Nat
  | .err c => c
  | .created => 201
  | .okGet _ _ => 200
  | .okHead _ _ => 200
  | .okOptions => 200

/-- Presence of a query key, the a[key] != nil test on url.Values. -/
def hasQueryKey (q : List (String × String)) (k : String) : Bool :=
  (List.find? (fun e => e.1 == k) q).isSome

/-- Protocol version selection of handleRequest: the token key is tried
first, then v, then v2 (lines 104-115 of src/prosody-filer.go). -/
def selectProtocol (q : List (String × String)) : Option String :=
  if hasQueryKey q "token" then some "token"
  else if hasQueryKey q "v" then some "v"
  else if hasQueryKey q "v2" then some "v2"
  else none

/-- First value of a query key, the a[key][0] of url.Values. -/
def firstVal (q : List (String × String)) (k : String) : String :=
  match List.find? (fun e => e.1 == k) q with
  | some e => e.2
  | none => ""

/-- mime.TypeByExtension restricted to the Go built-in table (the resolver
is environment-dependent in Go, so the handler is parameterized over it;
this instance is used for concrete runs). -/
def mimeTypesTable : List (String × String) :=
  [(".avif", "image/avif"), (".css", "text/css; charset=utf-8"), (".gif", "image/gif"),
   (".htm", "text/html; charset=utf-8"), (".html", "text/html; charset=utf-8"),
   (".jpeg", "image/jpeg"), (".jpg", "image/jpeg"), (".js", "text/javascript; charset=utf-8"),
   (".json", "application/json"), (".mjs", "text/javascript; charset=utf-8"),
   (".pdf", "application/pdf"), (".png", "image/png"), (".svg", "image/svg+xml"),
   (".wasm", "application/wasm"), (".webp", "image/webp"), (".xml", "text/xml; charset=utf-8")]

def asciiLower (s : String) : String :=
  String.mk (s.data.map (fun c => if 'A' ≤ c ∧ c ≤ 'Z' then Char.ofNat (c.toNat + 32) else c))

def builtinMime (ext : String) : String :=
  match List.find? (fun e => e.1 == ext) mimeTypesTable with
  | some e => e.2
  | none =>
    match List.find? (fun e => e.1 == asciiLower ext) mimeTypesTable with
    | some e => e.2
    | none => ""

/-- Content type computed by handleRequest from the file extension of the
storage path, defaulting to application/octet-stream. -/
def contentTypeFor (mimeType : String → String) (fileStorePath : String) : String :=
  let ct := mimeType (goExt fileStorePath)
  if ct = "" then "application/octet-stream" else ct

/-- Expected digest of protocol version v (mac_v1_String in handleRequest):
HMAC-SHA256 over fileStorePath, a space, and the decimal content length. -/
def macV1String (secret fileStorePath : String) (contentLength : Int) : String :=
  hexEncode (hmacSha256 (strBytes secret)
    (strBytes (fileStorePath ++ " " ++ toString contentLength)))

/-- Expected digest of protocol versions v2 and token (mac_v2_String in
handleRequest): HMAC-SHA256 over fileStorePath, a zero byte, the decimal
content length, a zero byte, and the content type. -/
def macV2String (secret fileStorePath : String) (contentLength : Int) (contentType : String) : String :=
  hexEncode (hmacSha256 (strBytes secret)
    (strBytes (fileStorePath ++ "\x00" ++ toString contentLength ++ "\x00" ++ contentType)))

/-- Storage sub-path computation of handleRequest lines 82-90: strip the
upload sub-path prefix, reject an empty or slash-only remainder, strip one
leading slash. -/
def fileStorePathOf (conf : Config) (urlPath : String) : Option String :=
  let subdir := goJoin2 "/" conf.uploadSubDir
  let f0 := goTrimPre urlPath subdir
  if f0 = "" ∨ f0 = "/" then none
  else some (if f0.data.head? = some '/' then String.mk (f0.data.drop 1) else f0)

def absFilenameOf (conf : Config) (fileStorePath : String) : String :=
  goJoin2 conf.storedir fileStorePath

/-- Storage step of an authenticated PUT (lines 153-178 and 180-205 of
src/prosody-filer.go): MkdirAll on the parent directory, exclusive-create
open of the target, copy of the body. -/
def putCreate (fs : FileSystem) (absFilename : String) (body : List Nat) : Response × FileSystem :=
  match mkdirAll fs (goDir absFilename) with
  | none => (.err 500, fs)
  | some fs1 =>
    if (statFs fs1 absFilename).isSome then (.err 409, fs1)
    else (.created, fsInsert fs1 absFilename (.file body))

/-- handleRequest of src/prosody-filer.go, parameterized over the mime
resolver; returns the response and the filesystem after the request. -/
def handleRequest (mimeType : String → String) (conf : Config) (fs : FileSystem)
    (r : GoRequest) : Response × FileSystem :=
  match fileStorePathOf conf r.urlPath with
  | none => (.err 403, fs)
  | some fileStorePath =>
    let absFilename := absFilenameOf conf fileStorePath
    if r.method = "PUT" then
      match selectProtocol r.query with
      | none => (.err 409, fs)
      | some pv =>
        let contentType := contentTypeFor mimeType fileStorePath
        let macV1 := macV1String conf.secret fileStorePath r.contentLength
        let macV2 := macV2String conf.secret fileStorePath r.contentLength contentType
        let clientMac := firstVal r.query pv
        if hmacEqual (strBytes macV1) (strBytes clientMac) then
          putCreate fs absFilename r.body
        else if hmacEqual (strBytes macV2) (strBytes clientMac) then
          putCreate fs absFilename r.body
        else (.err 403, fs)
    else if r.method = "HEAD" ∨ r.method = "GET" then
      match statFs fs absFilename with
      | none => (.err 404, fs)
      | some .dir => (.err 403, fs)
      | some (.file content) =>
        let contentType := contentTypeFor mimeType fileStorePath
        if r.method = "HEAD" then (.okHead contentType content.length, fs)
        else if containsDotDot r.urlPath then (.err 400, fs)
        else (.okGet contentType content, fs)
    else if r.method = "OPTIONS" then (.okOptions, fs)
    else (.err 405, fs)

/-! Spec-side digest definitions, for the refinement claims: these follow
the wording of the specification (payload written as explicit byte
concatenation), to be compared with the source-side macV1String and
macV2String. -/

/-- Digest of scheme v as the spec words it: HMAC-SHA256 over
relativePath ++ 0x20 ++ decimalContentLength, in lower-case hex. -/
def specVDigest (secret relativePath : String) (contentLength : Int) : String :=
  hexEncode (hmacSha256 (strBytes secret)
    (strBytes relativePath ++ [32] ++ strBytes (toString contentLength)))

/-- Digest of scheme v2/token as the spec words it: HMAC-SHA256 over
relativePath ++ 0x00 ++ decimalContentLength ++ 0x00 ++ contentType. -/
def specV2Digest (secret relativePath : String) (contentLength : Int) (contentType : String) : String :=
  hexEncode (hmacSha256 (strBytes secret)
    (strBytes relativePath ++ [0] ++ strBytes (toString contentLength) ++ [0] ++ strBytes contentType))

/-! Concrete fixtures for counterexamples and witnesses. -/

def conf0 : Config :=
  { listenport := ":5050", unixSocket := false, secret := "mysecret",
    storedir := "/store", uploadSubDir := "upload" }

def fsOutside : FileSystem := [("/etc/passwd", .file [42])]

def getEscapeReq : GoRequest :=
  { method := "GET", urlPath := "/upload/../../etc/passwd", query := [],
    contentLength := 0, body := [] }

def headEscapeReq : GoRequest :=
  { method := "HEAD", urlPath := "/upload/../../etc/passwd", query := [],
    contentLength := 0, body := [] }

def putNoTokenReq : GoRequest :=
  { method := "PUT", urlPath := "/upload/f.bin", query := [],
    contentLength := 1, body := [7] }

def putWrongSchemeReq : GoRequest :=
  { method := "PUT", urlPath := "/upload/f.bin",
    query := [("v2", macV1String "mysecret" "f.bin" 1)],
    contentLength := 1, body := [7] }

def putPrecedenceReq : GoRequest :=
  { method := "PUT", urlPath := "/upload/f.bin",
    query := [("v2", macV1String "mysecret" "f.bin" 1), ("token", "x")],
    contentLength := 1, body := [7] }

/-! Sanity checks of the cryptographic embedding against published test
vectors (FIPS 180-4 and RFC 4231 test case 2). -/

theorem sha256_abc_vector :
    hexEncode (sha256Bytes (strBytes "abc")) =
      "ba7816bf8f01cfea414140de5dae2223b00361a396177a9cb410ff61f20015ad" := by decide

theorem hmac_rfc4231_vector :
    hexEncode (hmacSha256 (strBytes "Jefe") (strBytes "what do ya want for nothing?")) =
      "5bdcc146bf60754e6a042426089575c75a003f089d2739839dec58b964ec3843" := by decide

/-! General helper lemmas. -/

theorem nat_or_eq_zero {a b : Nat} (h : a ||| b = 0) : a = 0 ∧ b = 0 := by
  constructor <;>
  · apply Nat.eq_of_testBit_eq
    intro i
    have hx := congrArg (fun x => Nat.testBit x i) h
    simp only [Nat.testBit_lor, Nat.zero_testBit, Bool.or_eq_false_iff] at hx
    simp [hx.1, hx.2]

theorem strBytes_append (a b : String) : strBytes (a ++ b) = strBytes a ++ strBytes b := by
  simp [strBytes, String.data_append]

theorem ctLoop_fst_self (x : List Nat) : ∀ v s, (ctLoop (v, s) (x.zip x)).1 = v := by
  induction x with
  | nil => intro v s; rfl
  | cons a as ih =>
    intro v s
    simp only [List.zip_cons_cons, ctLoop, Nat.xor_self, Nat.or_zero]
    exact ih v (s + 1)

theorem hmacEqual_self (x : List Nat) : hmacEqual x x = true := by
  unfold hmacEqual constantTimeCompare
  rw [if_pos rfl, ctLoop_fst_self]
  decide

theorem ctLoop_snd (l : List (Nat × Nat)) : ∀ v s, (ctLoop (v, s) l).2 = s + l.length := by
  induction l with
  | nil => intro v s; simp [ctLoop]
  | cons p ps ih =>
    intro v s
    simp only [ctLoop, List.length_cons]
    rw [ih]
    omega

theorem ctCompareSteps_of_length {x y : List Nat} (h : x.length = y.length) :
    ctCompareSteps x y = x.length := by
  unfold ctCompareSteps
  rw [if_pos h, ctLoop_snd, List.length_zip]
  omega

theorem ctLoop_fst_zero_iff (l : List (Nat × Nat)) :
    ∀ v s, ((ctLoop (v, s) l).1 = 0 ↔ v = 0 ∧ ∀ p ∈ l, p.1 = p.2) := by
  induction l with
  | nil => intro v s; simp [ctLoop]
  | cons p ps ih =>
    intro v s
    simp only [ctLoop]
    rw [ih]
    constructor
    · intro ⟨h0, hrest⟩
      have := nat_or_eq_zero h0
      refine ⟨this.1, ?_⟩
      intro q hq
      rcases List.mem_cons.mp hq with hq | hq
      · subst hq
        exact Nat.xor_eq_zero.mp this.2
      · exact hrest q hq
    · intro ⟨hv, hall⟩
      refine ⟨?_, fun q hq => hall q (List.mem_cons_of_mem _ hq)⟩
      have : p.1 ^^^ p.2 = 0 := Nat.xor_eq_zero.mpr (hall p (List.mem_cons_self _ _))
      simp [hv, this]

theorem ctLoop_fst_lt (l : List (Nat × Nat)) :
    ∀ v s, v < 256 → (∀ p ∈ l, p.1 < 256 ∧ p.2 < 256) → (ctLoop (v, s) l).1 < 256 := by
  induction l with
  | nil => intro v s hv _; simpa [ctLoop] using hv
  | cons p ps ih =>
    intro v s hv hall
    simp only [ctLoop]
    apply ih
    · have hp := hall p (List.mem_cons_self _ _)
      have hxor : p.1 ^^^ p.2 < 256 := Nat.xor_lt_two_pow (n := 8) hp.1 hp.2
      exact Nat.or_lt_two_pow (n := 8) hv hxor
    · exact fun q hq => hall q (List.mem_cons_of_mem _ hq)

theorem constantTimeByteEq_zero_iff {v : Nat} (hv : v < 256) :
    constantTimeByteEq v 0 = 1 ↔ v = 0 := by
  constructor
  · intro h
    by_contra hne
    have h1 : 1 ≤ v := Nat.one_le_iff_ne_zero.mpr hne
    unfold constantTimeByteEq w32 at h
    rw [Nat.xor_zero] at h
    have hmod : (v + 4294967295) % 4294967296 = v - 1 := by omega
    rw [hmod, Nat.shiftRight_eq_div_pow] at h
    have : (v - 1) / 2 ^ 31 = 0 := Nat.div_eq_of_lt (by omega)
    omega
  · intro h
    subst h
    decide

theorem list_eq_of_zip_eq (x y : List Nat) (h : x.length = y.length)
    (hall : ∀ p ∈ x.zip y, p.1 = p.2) : x = y := by
  induction x generalizing y with
  | nil =>
    cases y with
    | nil => rfl
    | cons b bs => simp at h
  | cons a as ih =>
    cases y with
    | nil => simp at h
    | cons b bs =>
      have hab : a = b := hall (a, b) (by simp)
      have hrest : as = bs := ih bs (by simpa using h) (fun p hp => hall p (by simp [hp]))
      rw [hab, hrest]

theorem hmacEqual_iff {x y : List Nat} (hlen : x.length = y.length)
    (hx : ∀ b ∈ x, b < 256) (hy : ∀ b ∈ y, b < 256) :
    hmacEqual x y = true ↔ x = y := by
  unfold hmacEqual constantTimeCompare
  rw [if_pos hlen]
  have hpairs : ∀ p ∈ x.zip y, p.1 < 256 ∧ p.2 < 256 := by
    intro p hp
    have := List.of_mem_zip hp
    exact ⟨hx _ this.1, hy _ this.2⟩
  have hvlt : (ctLoop (0, 0) (x.zip y)).1 < 256 := ctLoop_fst_lt _ 0 0 (by norm_num) hpairs
  constructor
  · intro h
    have h1 : constantTimeByteEq (ctLoop (0, 0) (x.zip y)).1 0 = 1 := by
      simpa using h
    have hz := (constantTimeByteEq_zero_iff hvlt).mp h1
    have := (ctLoop_fst_zero_iff (x.zip y) 0 0).mp hz
    exact list_eq_of_zip_eq x y hlen this.2
  · intro h
    subst h
    have := hmacEqual_self x
    unfold hmacEqual constantTimeCompare at this
    rwa [if_pos rfl] at this

theorem or_lt_256 {a b : Nat} (ha : a < 256) (hb : b < 256) : a ||| b < 256 := by
  have h := Nat.or_lt_two_pow (n := 8) (x := a) (y := b) (by norm_num [ha]) (by norm_num [hb])
  norm_num at h
  exact h

theorem char_toNat_lt (c : Char) : c.toNat < 1114112 := by
  rcases c.valid with h | h
  · exact Nat.lt_trans h (by norm_num)
  · exact h.2

theorem utf8Bytes_lt (c : Char) : ∀ b ∈ utf8Bytes c, b < 256 := by
  have hc := char_toNat_lt c
  intro b hb
  simp only [utf8Bytes] at hb
  split_ifs at hb with h1 h2 h3
  · simp at hb
    omega
  · have hs : c.toNat >>> 6 < 32 := by
      rw [Nat.shiftRight_eq_div_pow]
      omega
    have ha : c.toNat &&& 63 < 64 := Nat.and_lt_two_pow _ (y := 63) (n := 6) (by norm_num)
    simp at hb
    rcases hb with rfl | rfl
    · exact or_lt_256 (by norm_num) (by omega)
    · exact or_lt_256 (by norm_num) (by omega)
  · have hs : c.toNat >>> 12 < 16 := by
      rw [Nat.shiftRight_eq_div_pow]
      omega
    have hs6 : (c.toNat >>> 6) &&& 63 < 64 := Nat.and_lt_two_pow _ (y := 63) (n := 6) (by norm_num)
    have ha : c.toNat &&& 63 < 64 := Nat.and_lt_two_pow _ (y := 63) (n := 6) (by norm_num)
    simp at hb
    rcases hb with rfl | rfl | rfl
    · exact or_lt_256 (by norm_num) (by omega)
    · exact or_lt_256 (by norm_num) (by omega)
    · exact or_lt_256 (by norm_num) (by omega)
  · have hs : c.toNat >>> 18 < 5 := by
      rw [Nat.shiftRight_eq_div_pow]
      omega
    have h12 : (c.toNat >>> 12) &&& 63 < 64 := Nat.and_lt_two_pow _ (y := 63) (n := 6) (by norm_num)
    have h6 : (c.toNat >>> 6) &&& 63 < 64 := Nat.and_lt_two_pow _ (y := 63) (n := 6) (by norm_num)
    have ha : c.toNat &&& 63 < 64 := Nat.and_lt_two_pow _ (y := 63) (n := 6) (by norm_num)
    simp at hb
    rcases hb with rfl | rfl | rfl | rfl
    · exact or_lt_256 (by norm_num) (by omega)
    · exact or_lt_256 (by norm_num) (by omega)
    · exact or_lt_256 (by norm_num) (by omega)
    · exact or_lt_256 (by norm_num) (by omega)

theorem strBytes_lt (s : String) : ∀ b ∈ strBytes s, b < 256 := by
  intro b hb
  unfold strBytes at hb
  simp only [List.mem_flatten, List.mem_map] at hb
  obtain ⟨chunk, ⟨c, _, rfl⟩, hbc⟩ := hb
  exact utf8Bytes_lt c b hbc

theorem sha256Bytes_lt (m : List Nat) : ∀ b ∈ sha256Bytes m, b < 256 := by
  intro b hb
  unfold sha256Bytes at hb
  simp only [List.mem_flatten, List.mem_map] at hb
  obtain ⟨chunk, ⟨w, _, rfl⟩, hbw⟩ := hb
  simp [be32] at hbw
  rcases hbw with rfl | rfl | rfl | rfl <;> exact Nat.mod_lt _ (by norm_num)

theorem hmacSha256_lt (key msg : List Nat) : ∀ b ∈ hmacSha256 key msg, b < 256 := by
  intro b hb
  exact sha256Bytes_lt _ b hb

theorem hexDigitChar_isLower {n : Nat} (h : n < 16) : isLowerHexDigit (hexDigitChar n) = true := by
  interval_cases n <;> decide

theorem hexEncode_lower {bs : List Nat} (h : ∀ b ∈ bs, b < 256) :
    (hexEncode bs).data.all isLowerHexDigit = true := by
  rw [List.all_eq_true]
  intro c hc
  unfold hexEncode at hc
  simp only [List.mem_flatten, List.mem_map] at hc
  obtain ⟨chunk, ⟨b, hb, rfl⟩, hcchunk⟩ := hc
  have hblt := h b hb
  simp at hcchunk
  rcases hcchunk with rfl | rfl
  · exact hexDigitChar_isLower (by omega)
  · exact hexDigitChar_isLower (by omega)

theorem find?_append_of_some {α} {l₁ l₂ : List α} {p : α → Bool} {a : α}
    (h : l₁.find? p = some a) : (l₁ ++ l₂).find? p = some a := by
  induction l₁ with
  | nil => simp [List.find?] at h
  | cons x xs ih =>
    rw [List.cons_append]
    cases hx : p x with
    | true =>
      rw [List.find?_cons_of_pos _ hx] at h ⊢
      exact h
    | false =>
      rw [List.find?_cons_of_neg _ (by simp [hx])] at h ⊢
      exact ih h

theorem statFs_fsInsert_of_some {fs : FileSystem} {p q : String} {d e : FsEntry}
    (h : statFs fs p = some e) : statFs (fsInsert fs q d) p = some e := by
  unfold statFs at h ⊢
  unfold fsInsert
  cases hfind : List.find? (fun x => x.1 == p) fs with
  | none => rw [hfind] at h; simp at h
  | some x =>
    rw [find?_append_of_some hfind]
    rwa [hfind] at h

theorem mkdirAllFrom_preserves : ∀ (ds : List String) (fs fs₂ : FileSystem) (p : String) (e : FsEntry),
    statFs fs p = some e → mkdirAllFrom fs ds = some fs₂ → statFs fs₂ p = some e := by
  intro ds
  induction ds with
  | nil =>
    intro fs fs₂ p e h hmk
    unfold mkdirAllFrom at hmk
    cases hmk
    exact h
  | cons d rest ih =>
    intro fs fs₂ p e h hmk
    unfold mkdirAllFrom at hmk
    cases hstat : statFs fs d with
    | none =>
      rw [hstat] at hmk
      exact ih _ _ _ _ (statFs_fsInsert_of_some h) hmk
    | some entry =>
      rw [hstat] at hmk
      cases entry with
      | dir => exact ih _ _ _ _ h hmk
      | file content => simp at hmk

theorem mkdirAll_preserves {fs fs₂ : FileSystem} {d p : String} {e : FsEntry}
    (h : statFs fs p = some e) (hmk : mkdirAll fs d = some fs₂) : statFs fs₂ p = some e :=
  mkdirAllFrom_preserves _ _ _ _ _ h hmk

theorem selectProtocol_none {q : List (String × String)}
    (h1 : hasQueryKey q "v" = false) (h2 : hasQueryKey q "v2" = false)
    (h3 : hasQueryKey q "token" = false) : selectProtocol q = none := by
  simp [selectProtocol, h1, h2, h3]

/-- C3 (counterexample): a PUT whose query has none of the v, v2 and token
parameters is answered 409 Conflict by the code, not 403 Forbidden as the
claim states; no file is created. -/
theorem c3_counterexample :
    handleRequest builtinMime conf0 [] putNoTokenReq = (.err 409, []) ∧
    (handleRequest builtinMime conf0 [] putNoTokenReq).1 ≠ .err 403 := by
  decide

/-- C3 (amended): for every PUT request whose query string contains none of
the parameters v, v2 and token, the handler responds 409 Conflict (the
code's missing-token status) and creates no file — the filesystem is
returned unchanged. -/
theorem c3_amended (mt : String → String) (conf : Config) (fs : FileSystem)
    (r : GoRequest) (fsp : String)
    (hm : r.method = "PUT")
    (hp : fileStorePathOf conf r.urlPath = some fsp)
    (h1 : hasQueryKey r.query "v" = false)
    (h2 : hasQueryKey r.query "v2" = false)
    (h3 : hasQueryKey r.query "token" = false) :
    handleRequest mt conf fs r = (.err 409, fs) := by
  have hsel := selectProtocol_none h1 h2 h3
  unfold handleRequest
  rw [hp, hm, hsel]
  rfl

theorem c3_witness : handleRequest builtinMime conf0 [] putNoTokenReq = (.err 409, []) :=
  c3_amended builtinMime conf0 [] putNoTokenReq "f.bin" rfl (by decide) (by decide) (by decide)
    (by decide)

/-- C7 (counterexample): with both v2 and token present the handler selects
the token key, not v2: the v2 value (here an authenticating digest) is
ignored and the garbage token value is checked, so the request is rejected
403 — refuting that the digest is checked under the v2 scheme whenever the
v2 parameter is present. -/
theorem c7_counterexample :
    selectProtocol putPrecedenceReq.query = some "token" ∧
    some "token" ≠ some "v2" ∧
    hasQueryKey putPrecedenceReq.query "v2" = true ∧
    handleRequest builtinMime conf0 [] putPrecedenceReq = (.err 403, []) := by
  refine ⟨by decide, by decide, by decide, ?_⟩
  decide

/-- C7 (amended): protocol-version selection picks exactly one scheme by
query-key presence, with precedence token first, then v, then v2; with none
present no scheme is selected. -/
theorem c7_amended (q : List (String × String)) :
    (hasQueryKey q "token" = true → selectProtocol q = some "token") ∧
    (hasQueryKey q "token" = false → hasQueryKey q "v" = true → selectProtocol q = some "v") ∧
    (hasQueryKey q "token" = false → hasQueryKey q "v" = false → hasQueryKey q "v2" = true →
      selectProtocol q = some "v2") ∧
    (hasQueryKey q "token" = false → hasQueryKey q "v" = false → hasQueryKey q "v2" = false →
      selectProtocol q = none) := by
  refine ⟨fun h => by simp [selectProtocol, h], fun h1 h2 => by simp [selectProtocol, h1, h2],
    fun h1 h2 h3 => by simp [selectProtocol, h1, h2, h3],
    fun h1 h2 h3 => by simp [selectProtocol, h1, h2, h3]⟩

theorem c7_witness :
    selectProtocol [("token", "a"), ("v2", "b")] = some "token" ∧
    selectProtocol [("v", "a"), ("v2", "b")] = some "v" ∧
    selectProtocol [("v2", "b")] = some "v2" ∧
    selectProtocol [("x", "b")] = none :=
  ⟨(c7_amended _).1 (by decide),
   (c7_amended _).2.1 (by decide) (by decide),
   (c7_amended _).2.2.1 (by decide) (by decide) (by decide),
   (c7_amended _).2.2.2 (by decide) (by decide) (by decide)⟩

/-- C2 (counterexample): supplying the v-scheme digest value under the v2
key does not yield 403 — the handler accepts it (201 Created) and creates
the file, although the v and v2 digests differ at this input. -/
theorem c2_counterexample :
    handleRequest builtinMime conf0 [] putWrongSchemeReq =
      (.created, [("/store", .dir), ("/store/f.bin", .file [7])]) ∧
    macV1String "mysecret" "f.bin" 1 ≠
      macV2String "mysecret" "f.bin" 1 "application/octet-stream" := by
  constructor
  · decide
  · decide

/-- C2 (amended): the three schemes are not mutually exclusive: whichever
query parameter is selected, a client value equal to the v-scheme digest
authenticates the request and the handler proceeds to storage (the
exclusive-create step), because the v1 digest is compared first under every
selected parameter. -/
theorem c2_amended (mt : String → String) (conf : Config) (fs : FileSystem)
    (r : GoRequest) (fsp : String) (pv : String)
    (hm : r.method = "PUT")
    (hp : fileStorePathOf conf r.urlPath = some fsp)
    (hsel : selectProtocol r.query = some pv)
    (hv1 : firstVal r.query pv = macV1String conf.secret fsp r.contentLength) :
    handleRequest mt conf fs r = putCreate fs (absFilenameOf conf fsp) r.body := by
  unfold handleRequest
  rw [hp, hm, hsel]
  simp only [hv1, hmacEqual_self, if_true]

theorem c2_witness :
    handleRequest builtinMime conf0 [] putWrongSchemeReq =
      putCreate [] (absFilenameOf conf0 "f.bin") [7] :=
  c2_amended builtinMime conf0 [] putWrongSchemeReq "f.bin" "v2" rfl (by decide) (by decide) rfl

/-- C4 (confirmed): a PUT with a valid token whose resolved target already
exists is answered 409 Conflict and the stored entry at that path is
unchanged afterwards — the exclusive-create open never overwrites. -/
theorem c4_exclusive_create (mt : String → String) (conf : Config) (fs : FileSystem)
    (r : GoRequest) (fsp pv : String) (e : FsEntry) (fs₂ : FileSystem)
    (hm : r.method = "PUT")
    (hp : fileStorePathOf conf r.urlPath = some fsp)
    (hsel : selectProtocol r.query = some pv)
    (hmk : mkdirAll fs (goDir (absFilenameOf conf fsp)) = some fs₂)
    (hex : statFs fs (absFilenameOf conf fsp) = some e)
    (hauth : hmacEqual (strBytes (macV1String conf.secret fsp r.contentLength))
               (strBytes (firstVal r.query pv)) = true ∨
             hmacEqual (strBytes (macV2String conf.secret fsp r.contentLength
                 (contentTypeFor mt fsp)))
               (strBytes (firstVal r.query pv)) = true) :
    handleRequest mt conf fs r = (.err 409, fs₂) ∧
    statFs fs₂ (absFilenameOf conf fsp) = some e := by
  have hpres : statFs fs₂ (absFilenameOf conf fsp) = some e := mkdirAll_preserves hex hmk
  have hput : putCreate fs (absFilenameOf conf fsp) r.body = (.err 409, fs₂) := by
    unfold putCreate
    rw [hmk]
    simp only [hpres, Option.isSome_some, if_true]
  refine ⟨?_, hpres⟩
  unfold handleRequest
  rw [hp, hm, hsel]
  rcases hauth with h | h
  · simp only [h, if_true]
    exact hput
  · by_cases h1 : hmacEqual (strBytes (macV1String conf.secret fsp r.contentLength))
        (strBytes (firstVal r.query pv)) = true
    · simp only [h1, if_true]
      exact hput
    · simp only [h1, h, if_true, if_false]
      exact hput

theorem handleRequest_get_head_eq (mt : String → String) (conf : Config) (fs : FileSystem)
    (r : GoRequest) (fsp : String)
    (hm : r.method = "HEAD" ∨ r.method = "GET")
    (hp : fileStorePathOf conf r.urlPath = some fsp) :
    handleRequest mt conf fs r =
      (match statFs fs (absFilenameOf conf fsp) with
       | none => (Response.err 404, fs)
       | some .dir => (Response.err 403, fs)
       | some (.file content) =>
         if r.method = "HEAD" then (Response.okHead (contentTypeFor mt fsp) content.length, fs)
         else if containsDotDot r.urlPath then (Response.err 400, fs)
         else (Response.okGet (contentTypeFor mt fsp) content, fs)) := by
  have hput : (r.method = "PUT") = False := eq_false (by rcases hm with h | h <;> rw [h] <;> decide)
  have hgh : (r.method = "HEAD" ∨ r.method = "GET") = True := eq_true hm
  simp only [handleRequest, hp, hput, hgh, if_false, if_true]

theorem hr_put_no_proto (mt : String → String) (conf : Config) (fs : FileSystem)
    (r : GoRequest) (fsp : String)
    (hm : r.method = "PUT")
    (hp : fileStorePathOf conf r.urlPath = some fsp)
    (hsel : selectProtocol r.query = none) :
    handleRequest mt conf fs r = (.err 409, fs) := by
  unfold handleRequest
  rw [hp, hm, hsel]
  rfl

theorem hr_put_auth_fail (mt : String → String) (conf : Config) (fs : FileSystem)
    (r : GoRequest) (fsp pv : String)
    (hm : r.method = "PUT")
    (hp : fileStorePathOf conf r.urlPath = some fsp)
    (hsel : selectProtocol r.query = some pv)
    (h1 : hmacEqual (strBytes (macV1String conf.secret fsp r.contentLength))
            (strBytes (firstVal r.query pv)) = false)
    (h2 : hmacEqual (strBytes (macV2String conf.secret fsp r.contentLength
            (contentTypeFor mt fsp)))
            (strBytes (firstVal r.query pv)) = false) :
    handleRequest mt conf fs r = (.err 403, fs) := by
  unfold handleRequest
  rw [hp, hm, hsel]
  simp only [h1, h2, Bool.false_eq_true, if_false]
  rfl

/-- C9 (amended): for GET and HEAD, a missing resolved path gives 404 and a
directory gives 403; an existing file gives, for HEAD, 200 with the content
type derived from the extension and a content length equal to the stored
byte count, and, for GET, 200 with the stored bytes when the URL path has
no dot-dot segment — but 400 (ServeFile's invalid-URL-path rejection) when
it does.  The filesystem is never changed. -/
theorem c9_get_head (mt : String → String) (conf : Config) (fs : FileSystem)
    (r : GoRequest) (fsp : String)
    (hm : r.method = "HEAD" ∨ r.method = "GET")
    (hp : fileStorePathOf conf r.urlPath = some fsp) :
    (statFs fs (absFilenameOf conf fsp) = none → handleRequest mt conf fs r = (.err 404, fs)) ∧
    (statFs fs (absFilenameOf conf fsp) = some .dir →
      handleRequest mt conf fs r = (.err 403, fs)) ∧
    (∀ content, statFs fs (absFilenameOf conf fsp) = some (.file content) →
      (handleRequest mt conf fs r).2 = fs ∧
      (r.method = "HEAD" →
        handleRequest mt conf fs r = (.okHead (contentTypeFor mt fsp) content.length, fs) ∧
        (handleRequest mt conf fs r).1.status = 200) ∧
      (r.method = "GET" → containsDotDot r.urlPath = false →
        handleRequest mt conf fs r = (.okGet (contentTypeFor mt fsp) content, fs) ∧
        (handleRequest mt conf fs r).1.status = 200) ∧
      (r.method = "GET" → containsDotDot r.urlPath = true →
        handleRequest mt conf fs r = (.err 400, fs))) := by
  refine ⟨?_, ?_, ?_⟩
  · intro hstat
    rw [handleRequest_get_head_eq mt conf fs r fsp hm hp, hstat]
  · intro hstat
    rw [handleRequest_get_head_eq mt conf fs r fsp hm hp, hstat]
  · intro content hstat
    rw [handleRequest_get_head_eq mt conf fs r fsp hm hp, hstat]
    refine ⟨?_, ?_, ?_, ?_⟩
    · rcases hm with h | h
      · rw [h]
        rfl
      · rw [h]
        cases hdd : containsDotDot r.urlPath <;> rfl
    · intro hh
      rw [hh]
      exact ⟨rfl, rfl⟩
    · intro hg hdd
      rw [hg]
      simp only [hdd, Bool.false_eq_true, if_false]
      exact ⟨rfl, rfl⟩
    · intro hg hdd
      rw [hg]
      simp only [hdd, if_true]
      rfl

theorem c9_counterexample :
    fileStorePathOf conf0 getEscapeReq.urlPath = some "../../etc/passwd" ∧
    statFs fsOutside (absFilenameOf conf0 "../../etc/passwd") = some (.file [42]) ∧
    handleRequest builtinMime conf0 fsOutside getEscapeReq = (.err 400, fsOutside) ∧
    (handleRequest builtinMime conf0 fsOutside getEscapeReq).1.status ≠ 200 :=
  ⟨by decide, by decide, by decide, by decide⟩

theorem c9_witness :
    (handleRequest builtinMime conf0 [("/store/x.png", FsEntry.file [1, 2, 3])]
      { method := "HEAD", urlPath := "/upload/x.png", query := [], contentLength := 0,
        body := [] } =
      (.okHead "image/png" 3, [("/store/x.png", FsEntry.file [1, 2, 3])])) ∧
    (handleRequest builtinMime conf0 [("/store/x.png", FsEntry.file [1, 2, 3])]
      { method := "GET", urlPath := "/upload/x.png", query := [], contentLength := 0,
        body := [] } =
      (.okGet "image/png" [1, 2, 3], [("/store/x.png", FsEntry.file [1, 2, 3])])) := by
  constructor
  · have h := (c9_get_head builtinMime conf0 [("/store/x.png", FsEntry.file [1, 2, 3])]
      { method := "HEAD", urlPath := "/upload/x.png", query := [], contentLength := 0, body := [] }
      "x.png" (Or.inl rfl) (by decide)).2.2 [1, 2, 3] (by decide)
    rw [(h.2.1 rfl).1]
    decide
  · have h := (c9_get_head builtinMime conf0 [("/store/x.png", FsEntry.file [1, 2, 3])]
      { method := "GET", urlPath := "/upload/x.png", query := [], contentLength := 0, body := [] }
      "x.png" (Or.inr rfl) (by decide)).2.2 [1, 2, 3] (by decide)
    rw [(h.2.2.1 rfl (by decide)).1]
    decide

/-- C10 (confirmed): a PUT that does not authenticate — no protocol
parameter present, or the supplied value matching neither expected digest —
performs no filesystem mutation: the filesystem component of the result is
the input filesystem, and the response is 409 or 403. -/
theorem c10_frame (mt : String → String) (conf : Config) (fs : FileSystem)
    (r : GoRequest) (fsp : String)
    (hm : r.method = "PUT")
    (hp : fileStorePathOf conf r.urlPath = some fsp)
    (hauth : selectProtocol r.query = none ∨
      ∀ pv, selectProtocol r.query = some pv →
        hmacEqual (strBytes (macV1String conf.secret fsp r.contentLength))
          (strBytes (firstVal r.query pv)) = false ∧
        hmacEqual (strBytes (macV2String conf.secret fsp r.contentLength
            (contentTypeFor mt fsp)))
          (strBytes (firstVal r.query pv)) = false) :
    (handleRequest mt conf fs r).2 = fs ∧
    ((handleRequest mt conf fs r).1 = .err 409 ∨ (handleRequest mt conf fs r).1 = .err 403) := by
  rcases hauth with hnone | hfail
  · rw [hr_put_no_proto mt conf fs r fsp hm hp hnone]
    exact ⟨rfl, Or.inl rfl⟩
  · cases hselc : selectProtocol r.query with
    | none =>
      rw [hr_put_no_proto mt conf fs r fsp hm hp hselc]
      exact ⟨rfl, Or.inl rfl⟩
    | some pv =>
      have h := hfail pv hselc
      rw [hr_put_auth_fail mt conf fs r fsp pv hm hp hselc h.1 h.2]
      exact ⟨rfl, Or.inr rfl⟩

theorem c10_witness :
    (handleRequest builtinMime conf0 [] putNoTokenReq).2 = [] ∧
    ((handleRequest builtinMime conf0 [] putNoTokenReq).1 = .err 409 ∨
     (handleRequest builtinMime conf0 [] putNoTokenReq).1 = .err 403) :=
  c10_frame builtinMime conf0 [] putNoTokenReq "f.bin" rfl (by decide) (Or.inl (by decide))

/-- C5 (confirmed): the v-scheme expected digest is the lower-case hex
encoding of HMAC-SHA256 over relativePath, one 0x20 byte, and the decimal
content length, exactly as the spec words it; recomputation is
deterministic (the embedding is a pure function). -/
theorem c5_v_digest (secret relativePath : String) (contentLength : Int) :
    macV1String secret relativePath contentLength =
      specVDigest secret relativePath contentLength ∧
    macV1String secret relativePath contentLength =
      macV1String secret relativePath contentLength ∧
    (macV1String secret relativePath contentLength).data.all isLowerHexDigit = true := by
  refine ⟨?_, rfl, ?_⟩
  · unfold macV1String specVDigest
    have h32 : strBytes " " = [32] := by decide
    rw [strBytes_append, strBytes_append, h32]
  · exact hexEncode_lower (hmacSha256_lt _ _)

/-- C6 (confirmed): the v2/token expected digest is the lower-case hex
encoding of HMAC-SHA256 over relativePath, a zero byte, the decimal content
length, a zero byte, and the content type, where the content type is
resolved from the storage path's extension and defaults to
application/octet-stream when the resolver knows no type. -/
theorem c6_v2_digest (mt : String → String) (secret relativePath : String)
    (contentLength : Int) :
    macV2String secret relativePath contentLength (contentTypeFor mt relativePath) =
      specV2Digest secret relativePath contentLength (contentTypeFor mt relativePath) ∧
    (mt (goExt relativePath) = "" →
      contentTypeFor mt relativePath = "application/octet-stream") ∧
    (macV2String secret relativePath contentLength
      (contentTypeFor mt relativePath)).data.all isLowerHexDigit = true := by
  refine ⟨?_, ?_, ?_⟩
  · unfold macV2String specV2Digest
    have h0 : strBytes "\x00" = [0] := by decide
    rw [strBytes_append, strBytes_append, strBytes_append, strBytes_append, h0]
  · intro h
    unfold contentTypeFor
    rw [h]
    rfl
  · exact hexEncode_lower (hmacSha256_lt _ _)

theorem c6_witness :
    contentTypeFor builtinMime "f" = "application/octet-stream" ∧
    macV2String "mysecret" "f" 1 (contentTypeFor builtinMime "f") =
      specV2Digest "mysecret" "f" 1 (contentTypeFor builtinMime "f") :=
  ⟨(c6_v2_digest builtinMime "mysecret" "f" 1).2.1 (by decide),
   (c6_v2_digest builtinMime "mysecret" "f" 1).1⟩

/-- C8 (confirmed): the digest comparison of the handler (hmac.Equal, i.e.
crypto/subtle's ConstantTimeCompare) runs a number of loop iterations that
depends only on the input lengths, never on where the first differing byte
sits, while still deciding equality; a naive short-circuiting comparison
performs fewer steps on an early mismatch, as the closed contrast shows. -/
theorem c8_constant_time (x y u v : List Nat)
    (hxy : x.length = y.length) (huv : u.length = v.length) (hxu : x.length = u.length)
    (hx : ∀ b ∈ x, b < 256) (hy : ∀ b ∈ y, b < 256) :
    ctCompareSteps x y = ctCompareSteps u v ∧
    (hmacEqual x y = true ↔ x = y) ∧
    ctCompareSteps [0, 7] [1, 7] = 2 ∧ naiveEqSteps [0, 7] [1, 7] = 1 := by
  refine ⟨?_, hmacEqual_iff hxy hx hy, by decide, by decide⟩
  rw [ctCompareSteps_of_length hxy, ctCompareSteps_of_length huv, hxu]

theorem c8_witness :
    ctCompareSteps [1, 2] [1, 3] = ctCompareSteps [200, 200] [7, 7] ∧
    (hmacEqual [1, 2] [1, 3] = true ↔ [1, 2] = [1, 3]) ∧
    ctCompareSteps [0, 7] [1, 7] = 2 ∧ naiveEqSteps [0, 7] [1, 7] = 1 :=
  c8_constant_time [1, 2] [1, 3] [200, 200] [7, 7] (by decide) (by decide) (by decide)
    (by decide) (by decide)

theorem c4_witness :
    handleRequest builtinMime conf0 [("/store", FsEntry.dir), ("/store/f.bin", FsEntry.file [9])]
      { method := "PUT", urlPath := "/upload/f.bin",
        query := [("v", macV1String "mysecret" "f.bin" 5)], contentLength := 5,
        body := [1, 2, 3, 4, 5] } =
      (.err 409, [("/store", FsEntry.dir), ("/store/f.bin", FsEntry.file [9])]) ∧
    statFs [("/store", FsEntry.dir), ("/store/f.bin", FsEntry.file [9])]
      (absFilenameOf conf0 "f.bin") = some (FsEntry.file [9]) :=
  c4_exclusive_create builtinMime conf0
    [("/store", FsEntry.dir), ("/store/f.bin", FsEntry.file [9])]
    { method := "PUT", urlPath := "/upload/f.bin",
      query := [("v", macV1String "mysecret" "f.bin" 5)], contentLength := 5,
      body := [1, 2, 3, 4, 5] }
    "f.bin" "v" (FsEntry.file [9]) [("/store", FsEntry.dir), ("/store/f.bin", FsEntry.file [9])]
    rfl (by decide) (by decide) (by decide) (by decide) (Or.inl (hmacEqual_self _))

/-! Lemmas on the path.Clean stack pass, for the confinement claim. -/

theorem splitSlash_ne_nil (cs : List Char) : splitSlash cs ≠ [] := by
  cases cs with
  | nil => simp [splitSlash]
  | cons c cs =>
    simp only [splitSlash]
    split
    · simp
    · split <;> simp

theorem splitSlash_append (a b : List Char) :
    splitSlash (a ++ '/' :: b) = splitSlash a ++ splitSlash b := by
  induction a with
  | nil => simp [splitSlash]
  | cons c cs ih =>
    by_cases hc : c = '/'
    · simp only [List.cons_append, splitSlash, hc, eq_self_iff_true, if_true, List.append_eq, ih]
    · simp only [List.cons_append, splitSlash, hc, if_false, List.append_eq]
      cases hsc : splitSlash cs with
      | nil => exact absurd hsc (splitSlash_ne_nil cs)
      | cons g gs =>
        rw [ih, hsc]
        simp

theorem splitSlash_no_slash (cs : List Char) : ∀ p ∈ splitSlash cs, '/' ∉ p := by
  induction cs with
  | nil =>
    intro p hp
    simp [splitSlash] at hp
    subst hp
    simp
  | cons c cs ih =>
    intro p hp
    by_cases hc : c = '/'
    · simp only [splitSlash, hc, if_true, eq_self_iff_true] at hp
      rcases List.mem_cons.mp hp with rfl | hp
      · simp
      · exact ih p hp
    · simp only [splitSlash, hc, if_false] at hp
      cases hsc : splitSlash cs with
      | nil => exact absurd hsc (splitSlash_ne_nil cs)
      | cons g gs =>
        rw [hsc] at hp
        rcases List.mem_cons.mp hp with rfl | hp
        · have hg : '/' ∉ g := ih g (by rw [hsc]; exact List.mem_cons_self _ _)
          intro hmem
          rcases List.mem_cons.mp hmem with hh | hh
          · exact hc hh.symm
          · exact hg hh
        · exact ih p (by rw [hsc]; exact List.mem_cons_of_mem _ hp)

theorem cleanLoop_nil (r : Bool) (st : List (List Char)) : cleanLoop r st [] = st := rfl

theorem cleanLoop_cons (r : Bool) (st : List (List Char)) (p : List Char)
    (ps : List (List Char)) : cleanLoop r st (p :: ps) = cleanLoop r (cleanStep r st p) ps := rfl

theorem cleanLoop_append (r : Bool) (st l₁ l₂ : List (List Char)) :
    cleanLoop r st (l₁ ++ l₂) = cleanLoop r (cleanLoop r st l₁) l₂ := by
  unfold cleanLoop
  rw [List.foldl_append]

theorem cleanStep_skip (r : Bool) (st : List (List Char)) (p : List Char)
    (h : p = [] ∨ p = ['.']) : cleanStep r st p = st := by
  unfold cleanStep
  rw [if_pos h]

theorem cleanStep_push (r : Bool) (st : List (List Char)) (p : List Char)
    (h1 : ¬(p = [] ∨ p = ['.'])) (h2 : p ≠ ['.', '.']) : cleanStep r st p = p :: st := by
  unfold cleanStep
  rw [if_neg h1, if_neg h2]

theorem cleanLoop_extends (r : Bool) (parts : List (List Char))
    (hnd : ['.', '.'] ∉ parts) : ∀ st, ∃ ts, cleanLoop r st parts = ts ++ st := by
  induction parts with
  | nil => intro st; exact ⟨[], rfl⟩
  | cons p ps ih =>
    simp only [List.mem_cons, not_or] at hnd
    intro st
    rw [cleanLoop_cons]
    by_cases hskip : p = [] ∨ p = ['.']
    · rw [cleanStep_skip r st p hskip]
      exact ih (by simpa using hnd.2) st
    · rw [cleanStep_push r st p hskip (fun h => hnd.1 h.symm)]
      obtain ⟨ts, hts⟩ := ih (by simpa using hnd.2) (p :: st)
      refine ⟨ts ++ [p], ?_⟩
      rw [hts, List.append_assoc]
      rfl

theorem cleanLoop_good (parts : List (List Char)) (hparts : ∀ p ∈ parts, '/' ∉ p) :
    ∀ st, (∀ q ∈ st, goodPart q) → ∀ q ∈ cleanLoop true st parts, goodPart q := by
  induction parts with
  | nil => intro st hst q hq; exact hst q hq
  | cons p ps ih =>
    intro st hst q hq
    rw [cleanLoop_cons] at hq
    refine ih (fun x hx => hparts x (List.mem_cons_of_mem _ hx)) _ ?_ q hq
    intro x hx
    by_cases hskip : p = [] ∨ p = ['.']
    · rw [cleanStep_skip _ _ _ hskip] at hx
      exact hst x hx
    · by_cases hdd : p = ['.', '.']
      · unfold cleanStep at hx
        rw [if_neg hskip, if_pos hdd] at hx
        cases st with
        | nil => simp at hx
        | cons q0 qs =>
          have hq0 : q0 ≠ ['.', '.'] := (hst q0 (List.mem_cons_self _ _)).2.2.1
          simp only [hq0, if_false] at hx
          exact hst x (List.mem_cons_of_mem _ hx)
      · rw [cleanStep_push _ _ _ hskip hdd] at hx
        rcases List.mem_cons.mp hx with rfl | hx
        · rw [not_or] at hskip
          exact ⟨hskip.1, hskip.2, hdd, hparts x (List.mem_cons_self _ _)⟩
        · exact hst x hx

theorem splitSlash_single (p : List Char) (h : '/' ∉ p) : splitSlash p = [p] := by
  induction p with
  | nil => rfl
  | cons c cs ih =>
    have hc : ¬ c = '/' := fun hcc => h (by simp [hcc])
    have hcs : '/' ∉ cs := fun hm => h (List.mem_cons_of_mem _ hm)
    simp only [splitSlash, hc, if_false]
    rw [ih hcs]

theorem splitSlash_joinSlash (ps : List (List Char)) (hne : ps ≠ [])
    (hs : ∀ p ∈ ps, '/' ∉ p) : splitSlash (joinSlash ps) = ps := by
  induction ps with
  | nil => exact absurd rfl hne
  | cons p ps ih =>
    cases ps with
    | nil => exact splitSlash_single p (hs p (List.mem_cons_self _ _))
    | cons p2 ps2 =>
      have hj : joinSlash (p :: p2 :: ps2) = p ++ '/' :: joinSlash (p2 :: ps2) := rfl
      rw [hj, splitSlash_append, splitSlash_single p (hs p (List.mem_cons_self _ _)),
        ih (by simp) (fun x hx => hs x (List.mem_cons_of_mem _ hx))]
      rfl

theorem cleanLoop_pushes (parts : List (List Char)) (h : ∀ p ∈ parts, goodPart p) :
    ∀ st, cleanLoop true st parts = parts.reverse ++ st := by
  induction parts with
  | nil => intro st; simp [cleanLoop_nil]
  | cons p ps ih =>
    intro st
    have hp := h p (List.mem_cons_self _ _)
    rw [cleanLoop_cons, cleanStep_push _ _ _ (not_or.mpr ⟨hp.1, hp.2.1⟩) hp.2.2.1,
      ih (fun x hx => h x (List.mem_cons_of_mem _ hx)) (p :: st)]
    simp

theorem rootedParts_mk_rooted (stack : List (List Char)) (hgood : ∀ q ∈ stack, goodPart q) :
    rootedParts (String.mk ('/' :: joinSlash stack.reverse)) = stack.reverse := by
  unfold rootedParts
  have hsplit1 : splitSlash ('/' :: joinSlash stack.reverse) =
      [] :: splitSlash (joinSlash stack.reverse) := by
    simp [splitSlash]
  have hdata : (String.mk ('/' :: joinSlash stack.reverse)).data =
      '/' :: joinSlash stack.reverse := rfl
  rw [hdata, hsplit1, cleanLoop_cons, cleanStep_skip _ _ _ (Or.inl rfl)]
  by_cases hst : stack = []
  · subst hst
    rfl
  · have hrevne : stack.reverse ≠ [] := by
      simpa using hst
    have hgoodrev : ∀ q ∈ stack.reverse, goodPart q := by
      intro q hq
      exact hgood q (List.mem_reverse.mp hq)
    rw [splitSlash_joinSlash stack.reverse hrevne
        (fun x hx => (hgoodrev x hx).2.2.2),
      cleanLoop_pushes stack.reverse hgoodrev []]
    simp

/-- C1 (counterexample): a request whose URL path escapes storeRoot through
dot-dot segments resolves outside storeRoot, is not answered 403, and does
touch a filesystem entry outside storeRoot: with storeRoot /store, the URL
/upload/../../etc/passwd resolves to /etc/passwd — not a descendant of
/store.  A HEAD answers 200 with the outside file's metadata; a GET stats
the outside entry and answers 400 (ServeFile's dot-dot rejection) when it
exists as a file but 404 when it does not — the response depends on an
entry outside storeRoot, and no branch produces the claimed 403.  The
path-joining operation normalizes dot-dot lexically but does not confine
the result to storeRoot. -/
theorem c1_counterexample :
    fileStorePathOf conf0 "/upload/../../etc/passwd" = some "../../etc/passwd" ∧
    absFilenameOf conf0 "../../etc/passwd" = "/etc/passwd" ∧
    isDescendant conf0.storedir (absFilenameOf conf0 "../../etc/passwd") = false ∧
    handleRequest builtinMime conf0 fsOutside headEscapeReq =
      (.okHead "application/octet-stream" 1, fsOutside) ∧
    (handleRequest builtinMime conf0 fsOutside headEscapeReq).1 ≠ .err 403 ∧
    handleRequest builtinMime conf0 fsOutside getEscapeReq = (.err 400, fsOutside) ∧
    handleRequest builtinMime conf0 [] getEscapeReq = (.err 404, []) ∧
    (handleRequest builtinMime conf0 fsOutside getEscapeReq).1 ≠ .err 403 :=
  ⟨by decide, by decide, by decide, by decide, by decide, by decide, by decide, by decide⟩

/-- C1 (amended): the resolved storage path filepath.Join(storeRoot,
fileStorePath) is a descendant of storeRoot whenever the stripped
fileStorePath contains no dot-dot segment (storeRoot being a rooted path);
when dot-dot segments are present the resolution may escape storeRoot and
the handler performs no confinement check of its own: it stats the escaped
path, a HEAD answers 200 with the outside entry's metadata, and a GET is
answered 400 only by ServeFile's late dot-dot check — never the claimed
403, as the counterexample shows. -/
theorem c1_amended (conf : Config) (rel : String)
    (hroot : conf.storedir.data.head? = some '/')
    (hrel : rel ≠ "")
    (hnd : ['.', '.'] ∉ splitSlash rel.data) :
    isDescendant conf.storedir (absFilenameOf conf rel) = true := by
  unfold absFilenameOf
  obtain ⟨sd, hsd⟩ : ∃ sd, conf.storedir.data = '/' :: sd := by
    cases hsdata : conf.storedir.data with
    | nil => rw [hsdata] at hroot; simp at hroot
    | cons c cs =>
      rw [hsdata] at hroot
      simp at hroot
      exact ⟨cs, by rw [← hroot]⟩
  have hsne : conf.storedir ≠ "" := by
    intro h
    rw [h] at hsd
    simp at hsd
  have hj : goJoin2 conf.storedir rel = cleanPath (conf.storedir ++ "/" ++ rel) := by
    unfold goJoin2
    rw [if_neg hsne, if_neg hrel]
  have hsdata2 : (conf.storedir ++ "/" ++ rel).data =
      conf.storedir.data ++ '/' :: rel.data := by
    rw [String.data_append, String.data_append]
    simp
  have hshead : (conf.storedir ++ "/" ++ rel).data = '/' :: (sd ++ '/' :: rel.data) := by
    rw [hsdata2, hsd]
    rfl
  have hsplit : splitSlash (conf.storedir ++ "/" ++ rel).data =
      splitSlash conf.storedir.data ++ splitSlash rel.data := by
    rw [hsdata2, splitSlash_append]
  obtain ⟨ts, hts⟩ := cleanLoop_extends true (splitSlash rel.data) hnd
    (cleanLoop true [] (splitSlash conf.storedir.data))
  have hstack : cleanLoop true [] (splitSlash (conf.storedir ++ "/" ++ rel).data) =
      ts ++ cleanLoop true [] (splitSlash conf.storedir.data) := by
    rw [hsplit, cleanLoop_append, hts]
  have hgood : ∀ q ∈ cleanLoop true [] (splitSlash (conf.storedir ++ "/" ++ rel).data),
      goodPart q :=
    cleanLoop_good _ (splitSlash_no_slash _) [] (by simp)
  have hcp : cleanPath (conf.storedir ++ "/" ++ rel) =
      String.mk ('/' :: joinSlash (rootedParts (conf.storedir ++ "/" ++ rel))) := by
    unfold cleanPath rootedParts
    rw [hshead]
    rfl
  have hrp : rootedParts (cleanPath (conf.storedir ++ "/" ++ rel)) =
      rootedParts (conf.storedir ++ "/" ++ rel) := by
    rw [hcp]
    exact rootedParts_mk_rooted _ hgood
  unfold isDescendant
  rw [hj, hrp]
  rw [List.isPrefixOf_iff_prefix]
  unfold rootedParts
  rw [hstack, List.reverse_append]
  exact List.prefix_append _ _

theorem c1_witness :
    isDescendant conf0.storedir (absFilenameOf conf0 "thomas/abc/catmetal.jpg") = true :=
  c1_amended conf0 "thomas/abc/catmetal.jpg" (by decide) (by decide) (by decide)
